import Mathlib

/-
  Verification of the call scheduler in src/src/database.cc
  (node-sqlite3, class Database).

  The scheduler state is the set of Database fields consulted by
  Database::Process and Database::Schedule: open, closing, locked,
  pending, serialize and the call queue.  Operation bodies
  (Work_BeginExec, Work_BeginClose, ...) are modelled by the effect
  they have on this state when they are invoked: asynchronous bodies
  increment pending and later complete on the main thread
  (decrementing pending and running Process); synchronous bodies
  (configure operations, Work_Wait) leave pending unchanged.
  V8 values, N-API handles and the sqlite3 engine calls are out of
  scope and appear only as opaque observable actions.
-/

namespace NodeSqlite3

/-- Kind of a scheduled operation, determining its body effect:
`stmt` is a statement-level operation (statement.cc, opaque here),
`dbwork` is Work_BeginExec or Work_BeginLoadExtension,
`close` is Work_BeginClose, `config` is one of the synchronous
configure bodies (SetBusyTimeout, SetLimit, RegisterTraceCallback,
RegisterProfileCallback, RegisterUpdateCallback) and `waitK` is
Work_Wait. -/
inductive CKind
  | stmt
  | dbwork
  | close
  | config
  | waitK
deriving DecidableEq, Repr

/-- A queued Call (struct Database::Call): the stored exclusive flag,
whether the baton carries a callback function, the body kind and an
identifier distinguishing operations. -/
structure Call where
  exclusive : Bool
  hasCb : Bool
  kind : CKind
  id : Nat
deriving DecidableEq, Repr

/-- A Schedule request: the arguments of Database::Schedule together
with the callback presence of the baton.  The `exclusive` field is the
third argument of Schedule (before the `exclusive || serialize`
combination applied on enqueue). -/
structure Req where
  exclusive : Bool
  hasCb : Bool
  kind : CKind
  id : Nat
deriving DecidableEq, Repr

/-- The scheduler fields of class Database.  The C++ field `open` is
called `opened` here because `open` is reserved in Lean. -/
structure DB where
  opened : Bool
  closing : Bool
  locked : Bool
  pending : Nat
  serialize : Bool
  queue : List Call
deriving DecidableEq, Repr

/-- Observable actions: dispatching an operation body, invoking a
completion callback with the "Database is closed" / "Database handle
is closed" error, emitting an "error" event, emitting a "close" event,
invoking the close completion callback, and the sqlite3_interrupt
engine call. -/
inductive Act
  | dispatch (c : Call)
  | cbClosedError (id : Nat)
  | emitError
  | emitClose
  | cbDone (ok : Bool)
  | engineInterrupt
deriving DecidableEq, Repr

/-- Whether a body kind is asynchronous: its Work_Begin part increments
pending and a completion handler later runs on the main thread. -/
def isAsync : CKind → Bool
  | CKind.stmt => true
  | CKind.dbwork => true
  | CKind.close => true
  | CKind.config => false
  | CKind.waitK => false

/-- pending after invoking the body of `c` (asynchronous bodies do
`pending++`). -/
def bodyPending (p : Nat) (c : Call) : Nat :=
  if isAsync c.kind then p + 1 else p

/-- closing after invoking the body of `c` (Work_BeginClose sets
`closing = true`). -/
def bodyClosing (cl : Bool) (c : Call) : Bool :=
  if c.kind = CKind.close then true else cl

/-- Effect of invoking the body of `c` on the scheduler state. -/
def bodyEffect (db : DB) (c : Call) : DB :=
  { db with pending := bodyPending db.pending c,
            closing := bodyClosing db.closing c }

/-- The error loop of Database::Process when the connection is closed:
walks the queue, invokes each callback that is a function with the
"Database handle is closed" exception, and finally emits an "error"
event if no callback function was found (`called` stays false). -/
def flushActs : List Call → Bool → List Act
  | [], called => if called then [] else [Act.emitError]
  | c :: rest, called =>
    if c.hasCb then Act.cbClosedError c.id :: flushActs rest true
    else flushActs rest called

/-- Result of the dispatch loop of Database::Process. -/
structure DrainRes where
  locked : Bool
  pending : Nat
  closing : Bool
  queue : List Call
  disp : List Call
deriving DecidableEq, Repr

/-- The dispatch loop of Database::Process:
`while (open && (!locked || pending == 0) && !queue.empty())` pops the
front call unless it is exclusive with `pending > 0`, sets
`locked = call->exclusive`, invokes the body, and stops after an
exclusive dispatch.  `disp` lists the dispatched calls in order.
(The body of Work_Wait additionally calls Process recursively; that
nested call is not inlined here and is covered by the separate Process
steps of the transition system below.) -/
def drainGo (opened : Bool) (locked : Bool) (pending : Nat) (closing : Bool) :
    List Call → DrainRes
  | [] => ⟨locked, pending, closing, [], []⟩
  | c :: rest =>
    if opened && (!locked || pending == 0) then
      if c.exclusive && !(pending == 0) then ⟨locked, pending, closing, c :: rest, []⟩
      else if c.exclusive then
        ⟨true, bodyPending pending c, bodyClosing closing c, rest, [c]⟩
      else
        let r := drainGo opened false (bodyPending pending c) (bodyClosing closing c) rest
        ⟨r.locked, r.pending, r.closing, r.queue, c :: r.disp⟩
    else ⟨locked, pending, closing, c :: rest, []⟩

/-- Database::Process.  First regime: `!open && locked && !queue.empty()`
drains the whole queue with the closed error; second regime: the
dispatch loop. -/
def Process (db : DB) : DB × List Act :=
  if !db.opened && db.locked && !db.queue.isEmpty then
    ({ db with queue := [] }, flushActs db.queue false)
  else
    let r := drainGo db.opened db.locked db.pending db.closing db.queue
    ({ db with locked := r.locked, pending := r.pending,
               closing := r.closing, queue := r.queue },
     r.disp.map Act.dispatch)

/-- Guard of the first branch of Database::Schedule: `!open && locked`. -/
def schedDead (db : DB) : Bool := !db.opened && db.locked

/-- Guard of the enqueue branch of Database::Schedule:
`!open || ((locked || exclusive || serialize) && pending > 0)`. -/
def schedDefer (db : DB) (r : Req) : Bool :=
  !db.opened || ((db.locked || r.exclusive || db.serialize) && !(db.pending == 0))

/-- The Call constructed on enqueue: `new Call(callback, baton, exclusive || serialize)`. -/
def toQueued (ser : Bool) (r : Req) : Call :=
  ⟨r.exclusive || ser, r.hasCb, r.kind, r.id⟩

/-- The operation as dispatched immediately (its exclusive flag is the
Schedule argument itself). -/
def toCall (r : Req) : Call :=
  ⟨r.exclusive, r.hasCb, r.kind, r.id⟩

/-- Database::Schedule. -/
def Schedule (db : DB) (r : Req) : DB × List Act :=
  if schedDead db then
    (db, if r.hasCb then [Act.cbClosedError r.id] else [Act.emitError])
  else if schedDefer db r then
    ({ db with queue := db.queue ++ [toQueued db.serialize r] }, [])
  else
    (bodyEffect { db with locked := r.exclusive } (toCall r),
     [Act.dispatch (toCall r)])

/-- Database::Work_BeginClose minus the asserts: `pending++`,
`RemoveCallbacks()`, `closing = true`.  The C++ asserts
(`locked`, `open`, `_handle`, `pending == 0`) are stated as hypotheses
of the theorems about close. -/
def Work_BeginClose (db : DB) : DB :=
  { db with pending := db.pending + 1, closing := true }

/-- Database::Work_AfterClose: `pending--`, `closing = false`; on
engine success `open = false` (locked is left untouched to mark end of
life); fire the callback (or emit "error" when there is no callback
and the database is still open); if not open any more, emit "close"
and run Process. -/
def Work_AfterClose (db : DB) (success : Bool) (hasCb : Bool) : DB × List Act :=
  let db1 := { db with pending := db.pending - 1, closing := false }
  let db2 := if success then { db1 with opened := false } else db1
  let cbActs := if hasCb then [Act.cbDone success]
                else if db2.opened then [Act.emitError] else []
  if db2.opened then (db2, cbActs)
  else
    let p := Process db2
    (p.1, cbActs ++ Act.emitClose :: p.2)

/-- Modelled from the spec: TRY_CATCH_CALL (macros.h, which is not part
of src/) invokes the supplied JavaScript callback and traps any error
it throws, so execution of the caller continues afterwards ("even if
scopedFn throws/propagates an error", spec section 8).  A scoped
callback is therefore an arbitrary state transformer returning the
possibly re-entrant new state together with a flag recording whether
it threw; the flag is not consulted by the caller. -/
def ScopedCb : Type := DB → DB × Bool

/-- Database::Serialize: remember `serialize`, set it to true, run the
scoped callback if one was supplied and then restore the remembered
value, and finally run Process. -/
def Serialize (db : DB) (scopedFn : Option ScopedCb) : DB × List Act :=
  let before := db.serialize
  let db1 := { db with serialize := true }
  match scopedFn with
  | none => Process db1
  | some f => Process { (f db1).1 with serialize := before }

/-- Database::Parallelize: identical to Serialize with the flag set to
false. -/
def Parallelize (db : DB) (scopedFn : Option ScopedCb) : DB × List Act :=
  let before := db.serialize
  let db1 := { db with serialize := false }
  match scopedFn with
  | none => Process db1
  | some f => Process { (f db1).1 with serialize := before }

/-- The option argument of Database::Configure together with the
validity of the accompanying arguments (`busyTimeout` requires a
number, `limit` requires a third argument and two numbers). -/
inductive ConfigOpt
  | trace
  | profile
  | change
  | busyTimeout (isNum : Bool)
  | limit (argc3 : Bool) (idNum : Bool) (valNum : Bool)
  | other
deriving DecidableEq, Repr

/-- Whether a configure call reaches its Schedule call instead of
throwing a TypeError. -/
def configValid : ConfigOpt → Bool
  | ConfigOpt.trace => true
  | ConfigOpt.profile => true
  | ConfigOpt.change => true
  | ConfigOpt.busyTimeout isNum => isNum
  | ConfigOpt.limit argc3 idNum valNum => argc3 && idNum && valNum
  | ConfigOpt.other => false

/-- The successful tail of Database::Configure: `db->Schedule(op, baton)`
followed by `db->Process()`.  The two-argument Schedule call uses the
default `exclusive = false` of the declaration in database.h (the
header is not part of src/); the baton is built with the empty
`Napi::Function handle`, so it has no callback. -/
def configGo (db : DB) (id : Nat) : DB × List Act × Option String :=
  let s := Schedule db ⟨false, false, CKind.config, id⟩
  let p := Process s.1
  (p.1, s.2 ++ p.2, none)

/-- Database::Configure.  The error branches throw a TypeError (the
`some` message) and return before the final `db->Process()` call. -/
def Configure (db : DB) (argc2 : Bool) (o : ConfigOpt) (id : Nat) :
    DB × List Act × Option String :=
  if !argc2 then (db, [], some "Expected 2 arguments")
  else
    match o with
    | ConfigOpt.trace => configGo db id
    | ConfigOpt.profile => configGo db id
    | ConfigOpt.change => configGo db id
    | ConfigOpt.busyTimeout isNum =>
      if !isNum then (db, [], some "Value must be an integer")
      else configGo db id
    | ConfigOpt.limit argc3 idNum valNum =>
      if !argc3 then (db, [], some "Expected 3 arguments")
      else if !idNum then (db, [], some "limit id must be an integer")
      else if !valNum then (db, [], some "limit value must be an integer")
      else configGo db id
    | ConfigOpt.other => (db, [], some "is not a valid configuration option")

/-- Database::Interrupt: throws when not open, throws when closing,
otherwise calls sqlite3_interrupt and changes no scheduler state. -/
def Interrupt (db : DB) : DB × List Act × Option String :=
  if !db.opened then (db, [], some "Database is not open")
  else if db.closing then (db, [], some "Database is closing")
  else (db, [Act.engineInterrupt], none)

/-- Database::Exec: schedules Work_BeginExec with `exclusive = true`
(argument parsing of the SQL string is out of scope). -/
def Exec (db : DB) (hasCb : Bool) (id : Nat) : DB × List Act :=
  Schedule db ⟨true, hasCb, CKind.dbwork, id⟩

/-- Database::Wait: schedules Work_Wait with `exclusive = true`. -/
def Wait (db : DB) (hasCb : Bool) (id : Nat) : DB × List Act :=
  Schedule db ⟨true, hasCb, CKind.waitK, id⟩

/-- Database::LoadExtension: schedules Work_BeginLoadExtension with
`exclusive = true`. -/
def LoadExtension (db : DB) (hasCb : Bool) (id : Nat) : DB × List Act :=
  Schedule db ⟨true, hasCb, CKind.dbwork, id⟩

/-- Database::Close: schedules Work_BeginClose with `exclusive = true`. -/
def Close (db : DB) (hasCb : Bool) (id : Nat) : DB × List Act :=
  Schedule db ⟨true, hasCb, CKind.close, id⟩

/-! ## The transition system

A machine state is the scheduler state together with the list of
in-flight asynchronous operations (dispatched, their completion
handler not yet run) and a flag recording whether the open work item
of the constructor has completed.  `pending` in the code is exactly
the number of in-flight asynchronous operations. -/

/-- Machine state: scheduler fields, in-flight asynchronous operations
and whether Work_AfterOpen has run. -/
structure MState where
  db : DB
  inflight : List Call
  openFinished : Bool
deriving DecidableEq, Repr

/-- The asynchronous operations among the dispatch actions of a
Process or Schedule call: these enter the in-flight set. -/
def newInflight (acts : List Act) : List Call :=
  acts.filterMap fun a =>
    match a with
    | Act.dispatch c => if isAsync c.kind then some c else none
    | _ => none

/-- Step: a Schedule call (any entry point). -/
def schedStep (s : MState) (r : Req) : MState :=
  let p := Schedule s.db r
  ⟨p.1, s.inflight ++ newInflight p.2, s.openFinished⟩

/-- Step: a bare Process call (mode changes re-run it, Work_Wait and
the configure tail call it). -/
def procStep (s : MState) : MState :=
  let p := Process s.db
  ⟨p.1, s.inflight ++ newInflight p.2, s.openFinished⟩

/-- Step: Work_AfterOpen with engine success: `open = true`, emit
"open", Process. -/
def finishOpenOk (s : MState) : MState :=
  let p := Process { s.db with opened := true }
  ⟨p.1, s.inflight ++ newInflight p.2, true⟩

/-- Step: Work_AfterOpen with engine failure: `open` stays false. -/
def finishOpenFail (s : MState) : MState :=
  ⟨s.db, s.inflight, true⟩

/-- Step: completion handler of an in-flight statement or exec-like
operation (Work_AfterExec, Work_AfterLoadExtension, statement
completions): `pending--`, callbacks, Process. -/
def completeWork (s : MState) (l1 l2 : List Call) : MState :=
  let db1 := { s.db with pending := s.db.pending - 1 }
  let p := Process db1
  ⟨p.1, (l1 ++ l2) ++ newInflight p.2, s.openFinished⟩

/-- Step: Work_AfterClose with engine success: `pending--`,
`closing = false`, `open = false`, emit "close", Process. -/
def completeCloseOk (s : MState) (l1 l2 : List Call) : MState :=
  let db1 := { s.db with pending := s.db.pending - 1, closing := false,
                         opened := false }
  let p := Process db1
  ⟨p.1, (l1 ++ l2) ++ newInflight p.2, s.openFinished⟩

/-- Step: Work_AfterClose with engine failure: `pending--`,
`closing = false`, `open` and `locked` untouched, no Process call. -/
def completeCloseFail (s : MState) (l1 l2 : List Call) : MState :=
  ⟨{ s.db with pending := s.db.pending - 1, closing := false },
   l1 ++ l2, s.openFinished⟩

/-- Step: Serialize or Parallelize without a scoped callback: set the
flag, Process.  (A scoped callback is the composition of this step,
arbitrary steps performed by the callback, and a second flag
assignment followed by a Process step.) -/
def serializeSet (s : MState) (b : Bool) : MState :=
  let p := Process { s.db with serialize := b }
  ⟨p.1, s.inflight ++ newInflight p.2, s.openFinished⟩

/-- One step of the scheduler.  Schedule requests for the close entry
point always carry `exclusive = true` (Database::Close passes true);
statement and exec-like requests may carry either flag. -/
inductive Step : MState → MState → Prop
  | schedule (s : MState) (r : Req)
      (hclose : r.kind = CKind.close → r.exclusive = true) :
      Step s (schedStep s r)
  | proc (s : MState) : Step s (procStep s)
  | finOpenOk (s : MState) (h : s.openFinished = false) :
      Step s (finishOpenOk s)
  | finOpenFail (s : MState) (h : s.openFinished = false) :
      Step s (finishOpenFail s)
  | doneWork (s : MState) (c : Call) (l1 l2 : List Call)
      (hm : s.inflight = l1 ++ c :: l2)
      (hk : c.kind = CKind.stmt ∨ c.kind = CKind.dbwork) :
      Step s (completeWork s l1 l2)
  | doneCloseOk (s : MState) (c : Call) (l1 l2 : List Call)
      (hm : s.inflight = l1 ++ c :: l2) (hk : c.kind = CKind.close) :
      Step s (completeCloseOk s l1 l2)
  | doneCloseFail (s : MState) (c : Call) (l1 l2 : List Call)
      (hm : s.inflight = l1 ++ c :: l2) (hk : c.kind = CKind.close) :
      Step s (completeCloseFail s l1 l2)
  | setMode (s : MState) (b : Bool) : Step s (serializeSet s b)

/-- The state of a fresh Database object: nothing open, nothing
locked, nothing queued; the constructor has started the open work
item. -/
def initState : MState :=
  ⟨⟨false, false, false, 0, false, []⟩, [], false⟩

/-- Reachable machine states. -/
inductive Reach : MState → Prop
  | start : Reach initState
  | next {s s' : MState} : Reach s → Step s s' → Reach s'

/-! ## Lemmas about the dispatch loop -/

theorem drainGo_decomp (o : Bool) (q : List Call) :
    ∀ (l : Bool) (p : Nat) (cl : Bool),
    (drainGo o l p cl q).disp ++ (drainGo o l p cl q).queue = q := by
  induction q with
  | nil => intro l p cl; simp [drainGo]
  | cons c rest ih =>
    intro l p cl
    simp only [drainGo]
    split
    · split
      · simp
      · split
        · simp
        · have h := ih false (bodyPending p c) (bodyClosing cl c)
          simpa using h
    · simp

theorem drainGo_pending (o : Bool) (q : List Call) :
    ∀ (l : Bool) (p : Nat) (cl : Bool),
    (drainGo o l p cl q).pending =
      p + ((drainGo o l p cl q).disp.filter (fun c => isAsync c.kind)).length := by
  induction q with
  | nil => intro l p cl; simp [drainGo]
  | cons c rest ih =>
    intro l p cl
    simp only [drainGo]
    split
    · split
      · simp
      · split
        · by_cases ha : isAsync c.kind = true <;>
            simp [bodyPending, ha]
        · have h := ih false (bodyPending p c) (bodyClosing cl c)
          by_cases ha : isAsync c.kind = true
          · simp only [bodyPending, ha, if_true] at h ⊢
            simp [h, List.filter_cons, ha]
            omega
          · rw [Bool.not_eq_true] at ha
            simp only [bodyPending, ha, Bool.false_eq_true, if_false] at h ⊢
            simp [h, List.filter_cons, ha]
    · simp

theorem drainGo_stuck (o : Bool) (l : Bool) (p : Nat) (cl : Bool) (q : List Call)
    (h : o = false ∨ (l = true ∧ p ≠ 0)) :
    drainGo o l p cl q = ⟨l, p, cl, q, []⟩ := by
  cases q with
  | nil => simp [drainGo]
  | cons c rest =>
    simp only [drainGo]
    have hg : (o && (!l || p == 0)) = false := by
      rcases h with h | ⟨h1, h2⟩
      · simp [h]
      · simp [h1, h2]
    simp [hg]

theorem drainGo_nilDisp (o : Bool) (l : Bool) (p : Nat) (cl : Bool) (q : List Call)
    (h : (drainGo o l p cl q).disp = []) :
    drainGo o l p cl q = ⟨l, p, cl, q, []⟩ := by
  cases q with
  | nil => simp [drainGo]
  | cons c rest =>
    simp only [drainGo] at h ⊢
    split at h
    · split at h
      · split
        · simp
        · simp_all
      · split at h
        · simp at h
        · simp at h
    · split
      · simp_all
      · simp

theorem drainGo_dispGuard (o : Bool) (l : Bool) (p : Nat) (cl : Bool) (q : List Call)
    (h : (drainGo o l p cl q).disp ≠ []) :
    o = true ∧ (l = false ∨ p = 0) := by
  by_contra hc
  have hs : o = false ∨ (l = true ∧ p ≠ 0) := by
    cases o with
    | false => exact Or.inl rfl
    | true =>
      cases l with
      | false => exact absurd ⟨rfl, Or.inl rfl⟩ hc
      | true => exact Or.inr ⟨rfl, fun hp => hc ⟨rfl, Or.inr hp⟩⟩
  rw [drainGo_stuck o l p cl q hs] at h
  simp at h

theorem drainGo_excl (o : Bool) (q : List Call) :
    ∀ (l : Bool) (p : Nat) (cl : Bool) (res : DrainRes),
    drainGo o l p cl q = res → ∀ c, c ∈ res.disp → c.exclusive = true →
    p = 0 ∧ res.locked = true ∧
      ∃ pre, res.disp = pre ++ [c] ∧
        ∀ d ∈ pre, d.exclusive = false ∧ isAsync d.kind = false := by
  induction q with
  | nil => intro l p cl res hres c hc _; subst hres; simp [drainGo] at hc
  | cons c0 rest ih =>
    intro l p cl res hres c hc hex
    simp only [drainGo] at hres
    split at hres
    · rename_i hg
      split at hres
      · subst hres; simp at hc
      · split at hres
        · rename_i hne hx
          subst hres
          simp at hc
          subst hc
          have hp : p = 0 := by
            rcases Bool.eq_false_or_eq_true (p == 0) with h0 | h0
            · simpa using h0
            · rw [hex] at hne; simp [h0] at hne
          exact ⟨hp, rfl, [], by simp, by simp⟩
        · rename_i hne hx
          have hx0 : c0.exclusive = false := by
            rcases Bool.eq_false_or_eq_true c0.exclusive with h0 | h0
            · exact absurd h0 hx
            · exact h0
          subst hres
          simp at hc
          rcases hc with hc | hc
          · subst hc
            rw [hx0] at hex
            exact Bool.noConfusion hex
          · obtain ⟨hp, hl, pre, hpre, hall⟩ :=
              ih false (bodyPending p c0) (bodyClosing cl c0) _ rfl c hc hex
            have hpa : isAsync c0.kind = false ∧ p = 0 := by
              by_cases ha : isAsync c0.kind = true
              · exfalso; simp [bodyPending, ha] at hp
              · rw [Bool.not_eq_true] at ha
                simp [bodyPending, ha] at hp
                exact ⟨ha, hp⟩
            refine ⟨hpa.2, hl, c0 :: pre, by simp [hpre], ?_⟩
            intro d hd
            rcases List.mem_cons.mp hd with hd | hd
            · exact hd ▸ ⟨hx0, hpa.1⟩
            · exact hall d hd
    · subst hres; simp at hc

/-! ## Lemmas about the closed-connection flush and the action lists -/

theorem flushActs_eq (q : List Call) :
    ∀ called, flushActs q called =
      (q.filter (fun c => c.hasCb)).map (fun c => Act.cbClosedError c.id) ++
      (if called || q.any (fun c => c.hasCb) then [] else [Act.emitError]) := by
  induction q with
  | nil => intro called; cases called <;> simp [flushActs]
  | cons c rest ih =>
    intro called
    by_cases hcb : c.hasCb = true
    · simp [flushActs, hcb, ih true, List.filter_cons]
    · rw [Bool.not_eq_true] at hcb
      simp [flushActs, hcb, ih called, List.filter_cons]

theorem newInflight_map_dispatch (ds : List Call) :
    newInflight (ds.map Act.dispatch) = ds.filter (fun c => isAsync c.kind) := by
  induction ds with
  | nil => simp [newInflight]
  | cons c rest ih =>
    by_cases ha : isAsync c.kind = true
    · simp [newInflight, List.filterMap_cons, ha, List.filter_cons] at ih ⊢
      exact ih
    · rw [Bool.not_eq_true] at ha
      simp [newInflight, List.filterMap_cons, ha, List.filter_cons] at ih ⊢
      exact ih

theorem newInflight_flushActs (q : List Call) :
    ∀ called, newInflight (flushActs q called) = [] := by
  induction q with
  | nil => intro called; cases called <;> simp [flushActs, newInflight]
  | cons c rest ih =>
    intro called
    by_cases hcb : c.hasCb = true
    · simp only [flushActs, hcb, if_true]
      have := ih true
      simp [newInflight, List.filterMap_cons] at this ⊢
      exact this
    · rw [Bool.not_eq_true] at hcb
      simp only [flushActs, hcb, Bool.false_eq_true, if_false]
      exact ih called

theorem Process_serialize (db : DB) : (Process db).1.serialize = db.serialize := by
  unfold Process
  split <;> simp

theorem Process_opened (db : DB) : (Process db).1.opened = db.opened := by
  unfold Process
  split <;> simp

theorem Process_queue_suffix (db : DB) :
    ∃ ds, ds ++ (Process db).1.queue = db.queue := by
  unfold Process
  split
  · exact ⟨db.queue, by simp⟩
  · exact ⟨_, by simpa using drainGo_decomp db.opened db.queue db.locked db.pending db.closing⟩

/-! ## The scheduler invariant -/

/-- Invariant of the scheduler, stated over the scheduler fields, the
in-flight list and the open-finished flag:
pending counts the in-flight asynchronous operations; an exclusive
in-flight operation is alone and holds the lock; open and locked can
only be set once the open work item finished; nothing is in flight
when the connection is not open; in the terminal dead state
(not open, locked) the queue is empty; in-flight and queued close
operations are exclusive. -/
def InvD (db : DB) (infl : List Call) (of : Bool) : Prop :=
  db.pending = infl.length ∧
  (∀ c ∈ infl, c.exclusive = true → infl.length = 1 ∧ db.locked = true) ∧
  (db.opened = true → of = true) ∧
  (db.locked = true → of = true) ∧
  (db.opened = false → infl = []) ∧
  (db.opened = false → db.locked = true → db.queue = []) ∧
  (∀ c ∈ infl, c.kind = CKind.close → c.exclusive = true) ∧
  (∀ c ∈ db.queue, c.kind = CKind.close → c.exclusive = true)

/-- The machine invariant. -/
def Inv (s : MState) : Prop := InvD s.db s.inflight s.openFinished

theorem filter_async_nil (pre : List Call)
    (h : ∀ d ∈ pre, isAsync d.kind = false) :
    pre.filter (fun c => isAsync c.kind) = [] := by
  induction pre with
  | nil => simp
  | cons d rest ih =>
    have hd := h d (by simp)
    simp [List.filter_cons, hd]
    intro e he
    exact h e (by simp [he])

/-- Running Process preserves the invariant (the terminal-queue clause
is re-established rather than assumed). -/
theorem Process_inv (db : DB) (infl : List Call) (of : Bool)
    (h1 : db.pending = infl.length)
    (h2 : ∀ c ∈ infl, c.exclusive = true → infl.length = 1 ∧ db.locked = true)
    (h4 : db.opened = true → of = true)
    (h5 : db.locked = true → of = true)
    (h6 : db.opened = false → infl = [])
    (h8 : ∀ c ∈ infl, c.kind = CKind.close → c.exclusive = true)
    (h9 : ∀ c ∈ db.queue, c.kind = CKind.close → c.exclusive = true) :
    InvD (Process db).1 (infl ++ newInflight (Process db).2) of := by
  unfold Process
  split
  · rename_i hflush
    have ho : db.opened = false := by
      cases hop : db.opened
      · rfl
      · rw [hop] at hflush; simp at hflush
    have hl : db.locked = true := by
      cases hlk : db.locked
      · rw [hlk] at hflush; simp at hflush
      · rfl
    have hinfl : infl = [] := h6 ho
    subst hinfl
    rw [newInflight_flushActs]
    refine ⟨by simpa using h1, by simp, ?_, fun _ => h5 hl, by simp, by simp, by simp, by simp⟩
    intro hop
    rw [ho] at hop
    exact absurd hop (by simp)
  · rename_i hnf
    by_cases hd : (drainGo db.opened db.locked db.pending db.closing db.queue).disp = []
    · have hr := drainGo_nilDisp db.opened db.locked db.pending db.closing db.queue hd
      rw [hr]
      simp only [newInflight_map_dispatch]
      simp only [List.filter_nil, List.append_nil]
      refine ⟨h1, fun c hc hex => h2 c hc hex, h4, h5, h6, ?_, h8, h9⟩
      intro hop hl
      cases hq : db.queue
      · rfl
      · exfalso
        apply hnf
        rw [hop, hl, hq]
        simp
    · have hguard := drainGo_dispGuard db.opened db.locked db.pending db.closing db.queue hd
      obtain ⟨ho, hlp⟩ := hguard
      have hdec := drainGo_decomp db.opened db.queue db.locked db.pending db.closing
      have hpen := drainGo_pending db.opened db.queue db.locked db.pending db.closing
      simp only [newInflight_map_dispatch]
      set r := drainGo db.opened db.locked db.pending db.closing db.queue with hrdef
      set as := r.disp.filter (fun c => isAsync c.kind) with hasdef
      have hdispsub : ∀ c ∈ r.disp, c ∈ db.queue := by
        intro c hc
        rw [← hdec]
        exact List.mem_append.mpr (Or.inl hc)
      refine ⟨?_, ?_, ?_, ?_, ?_, ?_, ?_, ?_⟩
      · show r.pending = (infl ++ as).length
        rw [hpen, h1]
        simp
      · intro c hc hex
        rcases List.mem_append.mp hc with hin | hin
        · exfalso
          obtain ⟨hlen, hlk⟩ := h2 c hin hex
          rcases hlp with hlp | hlp
          · rw [hlp] at hlk; exact Bool.noConfusion hlk
          · rw [hlp] at h1
            rw [hlen] at h1
            exact absurd h1.symm (by simp)
        · have hcd : c ∈ r.disp := List.mem_of_mem_filter hin
          have hca : isAsync c.kind = true := by
            have := List.mem_filter.mp hin
            simpa using this.2
          obtain ⟨hp0, hlk, pre, hpre, hall⟩ :=
            drainGo_excl db.opened db.queue db.locked db.pending db.closing r rfl c hcd hex
          have hinfl : infl = [] := by
            rw [hp0] at h1
            exact (List.length_eq_zero.mp h1.symm)
          have hasval : as = [c] := by
            rw [hasdef, hpre]
            rw [List.filter_append]
            rw [filter_async_nil pre (fun d hd => (hall d hd).2)]
            simp [hca]
          constructor
          · rw [hinfl, hasval]; simp
          · show r.locked = true
            exact hlk
      · intro _; exact h4 ho
      · intro _; exact h4 ho
      · intro hop
        rw [ho] at hop
        exact absurd hop (by simp)
      · intro hop
        rw [ho] at hop
        exact absurd hop (by simp)
      · intro c hc hk
        rcases List.mem_append.mp hc with hin | hin
        · exact h8 c hin hk
        · exact h9 c (hdispsub c (List.mem_of_mem_filter hin)) hk
      · intro c hc hk
        have : c ∈ db.queue := by
          rw [← hdec]
          exact List.mem_append.mpr (Or.inr hc)
        exact h9 c this hk

theorem schedStep_inv (s : MState) (r : Req)
    (hclose : r.kind = CKind.close → r.exclusive = true)
    (h : Inv s) : Inv (schedStep s r) := by
  obtain ⟨h1, h2, h4, h5, h6, h7, h8, h9⟩ := h
  unfold Inv InvD schedStep Schedule
  by_cases hdead : schedDead s.db = true
  · rw [if_pos hdead]
    have hne : newInflight (if r.hasCb = true then [Act.cbClosedError r.id]
        else [Act.emitError]) = [] := by
      by_cases hcb : r.hasCb = true <;> simp [hcb, newInflight]
    simp only [hne, List.append_nil]
    exact ⟨h1, h2, h4, h5, h6, h7, h8, h9⟩
  · rw [if_neg hdead]
    by_cases hdefer : schedDefer s.db r = true
    · rw [if_pos hdefer]
      simp only [newInflight, List.filterMap_nil, List.append_nil]
      refine ⟨h1, h2, h4, h5, h6, ?_, h8, ?_⟩
      · intro hop hl
        exact absurd (by simp [schedDead, hop, hl]) hdead
      · intro c hc hk
        rcases List.mem_append.mp hc with hin | hin
        · exact h9 c hin hk
        · have hc' : c = toQueued s.db.serialize r := by simpa using hin
          subst hc'
          have : r.kind = CKind.close := by simpa [toQueued] using hk
          simp [toQueued, hclose this]
    · rw [if_neg hdefer]
      dsimp only
      have ho : s.db.opened = true := by
        cases hop : s.db.opened
        · exact absurd (by simp [schedDefer, hop]) hdefer
        · rfl
      have hgate : ((s.db.locked || r.exclusive || s.db.serialize)
          && !(s.db.pending == 0)) = false := by
        cases hg : ((s.db.locked || r.exclusive || s.db.serialize)
            && !(s.db.pending == 0))
        · rfl
        · exact absurd (by simp [schedDefer, ho, hg]) hdefer
      have hnew : newInflight [Act.dispatch (toCall r)] =
          if isAsync r.kind then [toCall r] else [] := by
        by_cases ha : isAsync r.kind = true <;>
          simp [newInflight, List.filterMap_cons, toCall, ha]
      refine ⟨?_, ?_, ?_, ?_, ?_, ?_, ?_, ?_⟩
      · rw [hnew]
        show bodyPending s.db.pending (toCall r) = _
        by_cases ha : isAsync r.kind = true <;>
          simp [bodyPending, toCall, ha, h1]
      · rw [hnew]
        intro c hc hex
        have hlk2 : ∀ d ∈ s.inflight, d.exclusive = true → False := by
          intro d hd hdx
          obtain ⟨hlen, hlkd⟩ := h2 d hd hdx
          rw [hlkd] at hgate
          have hp1 : s.db.pending = 1 := by rw [h1, hlen]
          rw [hp1] at hgate
          simp at hgate
        rcases List.mem_append.mp hc with hin | hin
        · exact absurd hex (by intro hx; exact hlk2 c hin hx)
        · have hca : isAsync r.kind = true ∧ c = toCall r := by
            by_cases ha : isAsync r.kind = true
            · constructor
              · exact ha
              · simpa [ha] using hin
            · simp [ha] at hin
          obtain ⟨ha, hceq⟩ := hca
          subst hceq
          have hrx : r.exclusive = true := by simpa [toCall] using hex
          have hp0 : s.db.pending = 0 := by
            rw [hrx] at hgate
            simp at hgate
            omega
          have hinfl : s.inflight = [] := by
            rw [hp0] at h1
            exact List.length_eq_zero.mp h1.symm
          constructor
          · rw [hinfl, ha]
            simp
          · show (bodyEffect _ _).locked = true
            simp [bodyEffect, hrx]
      · intro _
        exact h4 ho
      · intro _
        exact h4 ho
      · intro hop
        simp [bodyEffect] at hop
        simp [ho] at hop
      · intro hop
        simp [bodyEffect] at hop
        simp [ho] at hop
      · rw [hnew]
        intro c hc hk
        rcases List.mem_append.mp hc with hin | hin
        · exact h8 c hin hk
        · by_cases ha : isAsync r.kind = true
          · have hceq : c = toCall r := by simpa [ha] using hin
            subst hceq
            have : r.kind = CKind.close := by simpa [toCall] using hk
            simpa [toCall] using hclose this
          · simp [ha] at hin
      · intro c hc hk
        exact h9 c (by simpa [bodyEffect] using hc) hk

theorem mem_append_middle {d c : Call} {l1 l2 : List Call}
    (hd : d ∈ l1 ++ l2) : d ∈ l1 ++ c :: l2 := by
  rcases List.mem_append.mp hd with h | h
  · exact List.mem_append.mpr (Or.inl h)
  · exact List.mem_append.mpr (Or.inr (List.mem_cons_of_mem c h))

theorem procStep_inv (s : MState) (h : Inv s) : Inv (procStep s) := by
  obtain ⟨h1, h2, h4, h5, h6, h7, h8, h9⟩ := h
  exact Process_inv s.db s.inflight s.openFinished h1 h2 h4 h5 h6 h8 h9

theorem finishOpenOk_inv (s : MState) (h : Inv s) : Inv (finishOpenOk s) := by
  obtain ⟨h1, h2, h4, h5, h6, h7, h8, h9⟩ := h
  exact Process_inv { s.db with opened := true } s.inflight true
    h1 (fun c hc hx => h2 c hc hx) (fun _ => rfl) (fun _ => rfl)
    (fun hop => Bool.noConfusion hop) h8 h9

theorem finishOpenFail_inv (s : MState) (h : Inv s) : Inv (finishOpenFail s) := by
  obtain ⟨h1, h2, h4, h5, h6, h7, h8, h9⟩ := h
  exact ⟨h1, h2, fun _ => rfl, fun _ => rfl, h6, h7, h8, h9⟩

theorem completeWork_inv (s : MState) (c : Call) (l1 l2 : List Call)
    (hm : s.inflight = l1 ++ c :: l2) (h : Inv s) :
    Inv (completeWork s l1 l2) := by
  obtain ⟨h1, h2, h4, h5, h6, h7, h8, h9⟩ := h
  have hmem : c ∈ s.inflight := by rw [hm]; simp
  have ho : s.db.opened = true := by
    cases hop : s.db.opened
    · rw [h6 hop] at hm
      exact absurd hm.symm (by simp)
    · rfl
  have hlen : s.db.pending = l1.length + l2.length + 1 := by
    rw [h1, hm, List.length_append]
    simp only [List.length_cons]
    omega
  refine Process_inv _ (l1 ++ l2) s.openFinished ?_ ?_ ?_ ?_ ?_ ?_ ?_
  · show s.db.pending - 1 = (l1 ++ l2).length
    rw [List.length_append]
    omega
  · intro d hd hdx
    exfalso
    have hdm : d ∈ s.inflight := by rw [hm]; exact mem_append_middle hd
    obtain ⟨hL, _⟩ := h2 d hdm hdx
    rw [hm, List.length_append] at hL
    simp only [List.length_cons] at hL
    have hz1 : l1.length = 0 := by omega
    have hz2 : l2.length = 0 := by omega
    rw [List.length_eq_zero] at hz1 hz2
    rw [hz1, hz2] at hd
    simp at hd
  · exact h4
  · exact h5
  · intro hop
    show l1 ++ l2 = []
    exfalso
    rw [ho] at hop
    exact Bool.noConfusion hop
  · intro d hd hk
    have hdm : d ∈ s.inflight := by rw [hm]; exact mem_append_middle hd
    exact h8 d hdm hk
  · exact h9

theorem completeCloseOk_inv (s : MState) (c : Call) (l1 l2 : List Call)
    (hm : s.inflight = l1 ++ c :: l2) (hk : c.kind = CKind.close) (h : Inv s) :
    Inv (completeCloseOk s l1 l2) := by
  obtain ⟨h1, h2, h4, h5, h6, h7, h8, h9⟩ := h
  have hmem : c ∈ s.inflight := by rw [hm]; simp
  have hx : c.exclusive = true := h8 c hmem hk
  obtain ⟨hL, hlk⟩ := h2 c hmem hx
  have hn1 : l1 = [] := by
    cases l1 with
    | nil => rfl
    | cons a t =>
      exfalso
      rw [hm, List.length_append] at hL
      simp only [List.length_cons] at hL
      omega
  have hn2 : l2 = [] := by
    cases l2 with
    | nil => rfl
    | cons a t =>
      exfalso
      rw [hm, List.length_append] at hL
      simp only [List.length_cons] at hL
      omega
  subst hn1
  subst hn2
  have hp1 : s.db.pending = 1 := by rw [h1, hm]; simp
  refine Process_inv _ ([] ++ []) s.openFinished ?_ ?_ ?_ ?_ ?_ ?_ ?_
  · show s.db.pending - 1 = _
    simp [hp1]
  · intro d hd
    simp at hd
  · intro hop
    exact Bool.noConfusion hop
  · exact h5
  · intro _
    rfl
  · intro d hd
    simp at hd
  · exact h9

theorem completeCloseFail_inv (s : MState) (c : Call) (l1 l2 : List Call)
    (hm : s.inflight = l1 ++ c :: l2) (hk : c.kind = CKind.close) (h : Inv s) :
    Inv (completeCloseFail s l1 l2) := by
  obtain ⟨h1, h2, h4, h5, h6, h7, h8, h9⟩ := h
  have hmem : c ∈ s.inflight := by rw [hm]; simp
  have hx : c.exclusive = true := h8 c hmem hk
  obtain ⟨hL, hlk⟩ := h2 c hmem hx
  have hn1 : l1 = [] := by
    cases l1 with
    | nil => rfl
    | cons a t =>
      exfalso
      rw [hm, List.length_append] at hL
      simp only [List.length_cons] at hL
      omega
  have hn2 : l2 = [] := by
    cases l2 with
    | nil => rfl
    | cons a t =>
      exfalso
      rw [hm, List.length_append] at hL
      simp only [List.length_cons] at hL
      omega
  subst hn1
  subst hn2
  have hp1 : s.db.pending = 1 := by rw [h1, hm]; simp
  refine ⟨?_, ?_, h4, h5, fun _ => rfl, h7, ?_, h9⟩
  · simp only [completeCloseFail]
    simp [hp1]
  · intro d hd
    simp [completeCloseFail] at hd
  · intro d hd
    simp [completeCloseFail] at hd

theorem serializeSet_inv (s : MState) (b : Bool) (h : Inv s) :
    Inv (serializeSet s b) := by
  obtain ⟨h1, h2, h4, h5, h6, h7, h8, h9⟩ := h
  exact Process_inv { s.db with serialize := b } s.inflight s.openFinished
    h1 h2 h4 h5 h6 h8 h9

theorem Step_inv {s s' : MState} (h : Inv s) (hs : Step s s') : Inv s' := by
  cases hs with
  | schedule r hclose => exact schedStep_inv s r hclose h
  | proc => exact procStep_inv s h
  | finOpenOk _ => exact finishOpenOk_inv s h
  | finOpenFail _ => exact finishOpenFail_inv s h
  | doneWork c l1 l2 hm _ => exact completeWork_inv s c l1 l2 hm h
  | doneCloseOk c l1 l2 hm hk => exact completeCloseOk_inv s c l1 l2 hm hk h
  | doneCloseFail c l1 l2 hm hk => exact completeCloseFail_inv s c l1 l2 hm hk h
  | setMode b => exact serializeSet_inv s b h

theorem Reach_inv {s : MState} (h : Reach s) : Inv s := by
  induction h with
  | start =>
    refine ⟨rfl, ?_, ?_, ?_, fun _ => rfl, fun _ _ => rfl, ?_, ?_⟩
    · intro c hc
      simp [initState] at hc
    · intro hop
      exact Bool.noConfusion hop
    · intro hop
      exact Bool.noConfusion hop
    · intro c hc
      simp [initState] at hc
    · intro c hc
      simp [initState] at hc
  | next _ hs ih => exact Step_inv ih hs

/-! ## Bridge lemmas between the Bool guards and their propositional forms -/

theorem schedDead_iff (db : DB) :
    schedDead db = true ↔ db.opened = false ∧ db.locked = true := by
  simp [schedDead]

theorem schedDefer_iff (db : DB) (r : Req) :
    schedDefer db r = true ↔
      db.opened = false ∨
      ((db.locked = true ∨ r.exclusive = true ∨ db.serialize = true) ∧ 0 < db.pending) := by
  simp [schedDefer, Nat.pos_iff_ne_zero, or_assoc]

theorem Process_dead_fields (db : DB) (ho : db.opened = false) :
    (Process db).1.locked = db.locked ∧ (Process db).1.pending = db.pending ∧
    (Process db).1.closing = db.closing := by
  unfold Process
  split
  · simp
  · have h := drainGo_stuck db.opened db.locked db.pending db.closing db.queue (Or.inl ho)
    simp [h]

theorem dispatch_not_mem_flushActs (c : Call) (q : List Call) :
    ∀ called, Act.dispatch c ∉ flushActs q called := by
  induction q with
  | nil => intro called; cases called <;> simp [flushActs]
  | cons d rest ih =>
    intro called
    by_cases hcb : d.hasCb = true
    · simp [flushActs, hcb]
      exact ih true
    · rw [Bool.not_eq_true] at hcb
      simp [flushActs, hcb]
      exact ih called

/-! ## Claim C1: the three-way Schedule contract -/

/-- C1: Database::Schedule implements a three-way contract: (1) when
the connection is not open and locked is true (terminal dead state)
the operation is neither enqueued nor run, its completion callback is
invoked synchronously with the connection-closed error (the "error"
event is emitted when there is no callback) and pending is unchanged;
(2) else when the connection is not open, or locked or exclusive or
serialize is set while pending is positive, the operation is pushed
onto the call queue; (3) otherwise locked is set to the exclusive
argument and the body is invoked immediately without entering the
queue. -/
theorem C1_schedule_contract (db : DB) (r : Req) :
    (db.opened = false → db.locked = true →
      Schedule db r =
        (db, if r.hasCb then [Act.cbClosedError r.id] else [Act.emitError])) ∧
    (¬(db.opened = false ∧ db.locked = true) →
      (db.opened = false ∨
        ((db.locked = true ∨ r.exclusive = true ∨ db.serialize = true) ∧
          0 < db.pending)) →
      Schedule db r =
        ({ db with queue := db.queue ++ [toQueued db.serialize r] }, [])) ∧
    (db.opened = true →
      ¬((db.locked = true ∨ r.exclusive = true ∨ db.serialize = true) ∧
          0 < db.pending) →
      (Schedule db r).1.locked = r.exclusive ∧
      (Schedule db r).1.queue = db.queue ∧
      (Schedule db r).1.pending = bodyPending db.pending (toCall r) ∧
      (Schedule db r).2 = [Act.dispatch (toCall r)]) := by
  refine ⟨?_, ?_, ?_⟩
  · intro ho hl
    have hdead : schedDead db = true := (schedDead_iff db).mpr ⟨ho, hl⟩
    unfold Schedule
    rw [if_pos hdead]
  · intro hnd hdf
    have hdead : schedDead db = false := by
      cases hd : schedDead db
      · rfl
      · exact absurd ((schedDead_iff db).mp hd) hnd
    have hdefer : schedDefer db r = true := (schedDefer_iff db r).mpr hdf
    unfold Schedule
    rw [hdead, if_neg (by simp), if_pos hdefer]
  · intro ho hng
    have hdead : schedDead db = false := by
      cases hd : schedDead db
      · rfl
      · obtain ⟨ho2, _⟩ := (schedDead_iff db).mp hd
        rw [ho] at ho2
        exact Bool.noConfusion ho2
    have hdefer : schedDefer db r = false := by
      cases hd : schedDefer db r
      · rfl
      · rcases (schedDefer_iff db r).mp hd with h | h
        · rw [ho] at h
          exact Bool.noConfusion h
        · exact absurd h hng
    unfold Schedule
    rw [hdead, hdefer, if_neg (by simp), if_neg (by simp)]
    exact ⟨by simp [bodyEffect], by simp [bodyEffect], by simp [bodyEffect], rfl⟩

/-- Witness for C1 at a terminally closed connection with a callback. -/
theorem C1_schedule_contract_witness :
    Schedule ⟨false, false, true, 0, false, []⟩ ⟨false, true, CKind.stmt, 7⟩ =
      (⟨false, false, true, 0, false, []⟩, [Act.cbClosedError 7]) := by
  have h := (C1_schedule_contract ⟨false, false, true, 0, false, []⟩
    ⟨false, true, CKind.stmt, 7⟩).1 rfl rfl
  simpa using h

/-! ## Claim C8: the interrupt window -/

/-- C8: Database::Interrupt fails synchronously with "Database is not
open" when the connection is not open, fails with "Database is
closing" while a close is in flight, and otherwise calls the engine
interrupt primitive without changing any scheduler state. -/
theorem C8_interrupt_window (db : DB) :
    (Interrupt db).1 = db ∧
    (db.opened = false → Interrupt db = (db, [], some "Database is not open")) ∧
    (db.opened = true → db.closing = true →
      Interrupt db = (db, [], some "Database is closing")) ∧
    (db.opened = true → db.closing = false →
      Interrupt db = (db, [Act.engineInterrupt], none)) := by
  refine ⟨?_, ?_, ?_, ?_⟩
  · unfold Interrupt
    split
    · rfl
    · split <;> rfl
  · intro ho
    unfold Interrupt
    rw [ho]
    simp
  · intro ho hc
    unfold Interrupt
    rw [ho, hc]
    simp
  · intro ho hc
    unfold Interrupt
    rw [ho, hc]
    simp

/-- Witness for C8 on an open, non-closing connection. -/
theorem C8_interrupt_window_witness :
    Interrupt ⟨true, false, false, 2, false, []⟩ =
      (⟨true, false, false, 2, false, []⟩, [Act.engineInterrupt], none) := by
  have h := (C8_interrupt_window ⟨true, false, false, 2, false, []⟩).2.2.2 rfl rfl
  exact h

/-! ## Claim C5: scoped serialize / parallelize restore the mode -/

/-- C5: Database::Serialize with a scoped callback runs the callback
on the state with serialize set to true and restores the prior value
afterwards, whatever the callback does to the state and whether or not
it throws (TRY_CATCH_CALL traps the error); Database::Parallelize is
symmetric with the flag cleared. -/
theorem C5_mode_restore (db : DB) (f : ScopedCb) :
    Serialize db (some f) =
      Process { (f { db with serialize := true }).1 with serialize := db.serialize } ∧
    (Serialize db (some f)).1.serialize = db.serialize ∧
    Parallelize db (some f) =
      Process { (f { db with serialize := false }).1 with serialize := db.serialize } ∧
    (Parallelize db (some f)).1.serialize = db.serialize := by
  refine ⟨rfl, ?_, rfl, ?_⟩
  · show (Process { (f { db with serialize := true }).1 with serialize := db.serialize }).1.serialize = db.serialize
    rw [Process_serialize]
  · show (Process { (f { db with serialize := false }).1 with serialize := db.serialize }).1.serialize = db.serialize
    rw [Process_serialize]

/-! ## Claim C10: exclusivity is snapshotted at Schedule time -/

/-- C10: a queued operation stores `exclusive || serialize` as
evaluated at enqueue time; an immediately dispatched operation sets
locked from the explicit exclusive argument only; and a later
serialize or parallelize call never modifies a call that stays in the
queue (the queue after the mode change is a suffix of the queue before
it, entries unchanged). -/
theorem C10_exclusivity_snapshot (db : DB) (r : Req) :
    (¬(db.opened = false ∧ db.locked = true) →
      (db.opened = false ∨
        ((db.locked = true ∨ r.exclusive = true ∨ db.serialize = true) ∧
          0 < db.pending)) →
      (Schedule db r).1.queue =
        db.queue ++ [⟨r.exclusive || db.serialize, r.hasCb, r.kind, r.id⟩]) ∧
    (db.opened = true →
      ¬((db.locked = true ∨ r.exclusive = true ∨ db.serialize = true) ∧
          0 < db.pending) →
      (Schedule db r).1.locked = r.exclusive) ∧
    (∃ ds, ds ++ (Serialize db none).1.queue = db.queue) ∧
    (∃ ds, ds ++ (Parallelize db none).1.queue = db.queue) := by
  refine ⟨?_, ?_, ?_, ?_⟩
  · intro hnd hdf
    rw [((C1_schedule_contract db r).2.1) hnd hdf]
    simp [toQueued]
  · intro ho hng
    exact (((C1_schedule_contract db r).2.2) ho hng).1
  · show ∃ ds, ds ++ (Process { db with serialize := true }).1.queue = db.queue
    exact Process_queue_suffix { db with serialize := true }
  · show ∃ ds, ds ++ (Process { db with serialize := false }).1.queue = db.queue
    exact Process_queue_suffix { db with serialize := false }

/-- Witness for C10: enqueueing a non-exclusive operation while
serialize is set stores an exclusive queue entry. -/
theorem C10_exclusivity_snapshot_witness :
    (Schedule ⟨true, false, false, 1, true, []⟩ ⟨false, true, CKind.stmt, 3⟩).1.queue =
      [⟨true, true, CKind.stmt, 3⟩] := by
  have h := (C10_exclusivity_snapshot ⟨true, false, false, 1, true, []⟩
      ⟨false, true, CKind.stmt, 3⟩).1
    (by simp) (Or.inr ⟨Or.inr (Or.inr rfl), by decide⟩)
  simpa using h

/-! ## Claim C9: exec, wait, loadExtension and close run exclusively -/

/-- C9: the database-level entry points Exec, Wait, LoadExtension and
Close all call Schedule with the exclusive flag set to true, and any
exclusive operation is only ever dispatched (by Schedule or by the
Process loop) on an open connection with pending equal to zero,
leaving locked set — so the asserted preconditions of their bodies
hold whatever the serialize mode is. -/
theorem C9_db_ops_exclusive :
    (∀ db hasCb id, Exec db hasCb id = Schedule db ⟨true, hasCb, CKind.dbwork, id⟩) ∧
    (∀ db hasCb id, Wait db hasCb id = Schedule db ⟨true, hasCb, CKind.waitK, id⟩) ∧
    (∀ db hasCb id,
      LoadExtension db hasCb id = Schedule db ⟨true, hasCb, CKind.dbwork, id⟩) ∧
    (∀ db hasCb id, Close db hasCb id = Schedule db ⟨true, hasCb, CKind.close, id⟩) ∧
    (∀ (db : DB) (r : Req) (c : Call), r.exclusive = true →
      Act.dispatch c ∈ (Schedule db r).2 →
      db.opened = true ∧ db.pending = 0 ∧ (Schedule db r).1.locked = true) ∧
    (∀ (db : DB) (c : Call), Act.dispatch c ∈ (Process db).2 → c.exclusive = true →
      db.opened = true ∧ db.pending = 0 ∧ (Process db).1.locked = true) := by
  refine ⟨fun _ _ _ => rfl, fun _ _ _ => rfl, fun _ _ _ => rfl, fun _ _ _ => rfl, ?_, ?_⟩
  · intro db r c hx hmem
    unfold Schedule at hmem ⊢
    by_cases hdead : schedDead db = true
    · rw [if_pos hdead] at hmem
      by_cases hcb : r.hasCb = true <;> simp [hcb] at hmem
    · rw [Bool.not_eq_true] at hdead
      rw [hdead] at hmem ⊢
      rw [if_neg (by simp)] at hmem ⊢
      by_cases hdefer : schedDefer db r = true
      · rw [if_pos hdefer] at hmem
        simp at hmem
      · rw [Bool.not_eq_true] at hdefer
        rw [hdefer] at hmem ⊢
        rw [if_neg (by simp)] at hmem ⊢
        have ho : db.opened = true := by
          cases hop : db.opened
          · simp [schedDefer, hop] at hdefer
          · rfl
        have hp : db.pending = 0 := by
          by_contra hpne
          have : schedDefer db r = true :=
            (schedDefer_iff db r).mpr
              (Or.inr ⟨Or.inr (Or.inl hx), Nat.pos_of_ne_zero hpne⟩)
          rw [hdefer] at this
          exact Bool.noConfusion this
        exact ⟨ho, hp, by simp [bodyEffect, hx]⟩
  · intro db c hmem hx
    unfold Process at hmem ⊢
    split at hmem
    · exact absurd hmem (dispatch_not_mem_flushActs c db.queue false)
    · rename_i hnf
      rw [if_neg hnf]
      have hcd : c ∈ (drainGo db.opened db.locked db.pending db.closing db.queue).disp := by
        simpa using hmem
      obtain ⟨ho, _⟩ := drainGo_dispGuard db.opened db.locked db.pending db.closing db.queue
        (by intro hnil; rw [hnil] at hcd; simp at hcd)
      obtain ⟨hp0, hlk, _⟩ := drainGo_excl db.opened db.queue db.locked db.pending db.closing
        _ rfl c hcd hx
      exact ⟨ho, hp0, by simpa using hlk⟩

/-- Witness for C9: an exclusive request dispatched immediately on an
open idle connection. -/
theorem C9_db_ops_exclusive_witness :
    (⟨true, false, false, 0, false, []⟩ : DB).opened = true ∧
    (⟨true, false, false, 0, false, []⟩ : DB).pending = 0 ∧
    (Schedule ⟨true, false, false, 0, false, []⟩ ⟨true, true, CKind.dbwork, 4⟩).1.locked = true := by
  exact C9_db_ops_exclusive.2.2.2.2.1 ⟨true, false, false, 0, false, []⟩
    ⟨true, true, CKind.dbwork, 4⟩ ⟨true, true, CKind.dbwork, 4⟩ rfl (by decide)

/-! ## Claim C3: the dead-connection flush -/

/-- A terminally closed connection with two queued statement
operations: number 1 carries a completion callback, number 2 does
not. -/
def dbDeadQ : DB :=
  ⟨false, false, true, 0, false,
   [⟨false, true, CKind.stmt, 1⟩, ⟨false, false, CKind.stmt, 2⟩]⟩

/-- C3 counterexample: when the dead-connection flush drains a queue
holding one operation with a callback and one without, the
callback-less operation receives no completion and no "error" event is
emitted either (the event is emitted only when no callback at all was
called), so an operation is dropped without any notification. -/
theorem C3_flush_counterexample :
    (Process dbDeadQ).1.queue = [] ∧
    (Process dbDeadQ).2 = [Act.cbClosedError 1] ∧
    (∃ c, c ∈ dbDeadQ.queue ∧ c.hasCb = false) ∧
    Act.emitError ∉ (Process dbDeadQ).2 := by
  refine ⟨by decide, by decide, ⟨⟨false, false, CKind.stmt, 2⟩, by decide, rfl⟩, by decide⟩

/-- C3 amended: with open false, locked true and a non-empty queue,
Process drains the whole queue (it ends empty), invokes the completion
of exactly those drained operations that have a callback with the
connection-closed error, and emits a single process-level "error"
event if and only if no drained operation had a callback. -/
theorem C3_dead_flush (db : DB) (ho : db.opened = false) (hl : db.locked = true)
    (hq : db.queue ≠ []) :
    (Process db).1 = { db with queue := [] } ∧
    (Process db).2 =
      (db.queue.filter (fun c => c.hasCb)).map (fun c => Act.cbClosedError c.id) ++
      (if db.queue.any (fun c => c.hasCb) then [] else [Act.emitError]) := by
  have hguard : (!db.opened && db.locked && !db.queue.isEmpty) = true := by
    simp [ho, hl]
    intro hcontra
    exact absurd hcontra hq
  unfold Process
  rw [if_pos hguard]
  refine ⟨rfl, ?_⟩
  rw [flushActs_eq]
  simp

/-- Witness for the amended C3 at the concrete dead connection. -/
theorem C3_dead_flush_witness :
    (Process dbDeadQ).1 = { dbDeadQ with queue := [] } ∧
    (Process dbDeadQ).2 =
      (dbDeadQ.queue.filter (fun c => c.hasCb)).map (fun c => Act.cbClosedError c.id) ++
      (if dbDeadQ.queue.any (fun c => c.hasCb) then [] else [Act.emitError]) :=
  C3_dead_flush dbDeadQ rfl rfl (by decide)

/-! ## Claim C7: Process after configure -/

/-- C7 counterexample: Database::Configure with an unrecognized option
throws the TypeError and returns before the final Process call: on a
terminally closed connection with a queued operation the queue stays
non-empty, whereas a Process call would have flushed it empty. -/
theorem C7_configure_counterexample :
    (Configure dbDeadQ true ConfigOpt.other 5).1.queue ≠ [] ∧
    (Configure dbDeadQ true ConfigOpt.other 5).2.2 =
      some "is not a valid configuration option" ∧
    (Process dbDeadQ).1.queue = [] := by
  refine ⟨by decide, by decide, by decide⟩

/-- C7 amended: Process is invoked after every configure call whose
option is recognized and whose arguments are valid (the call equals
scheduling the configure operation and then running Process); with an
unrecognized option or invalid argument values Configure throws a
TypeError synchronously, leaving the state unchanged and never
reaching the Process call. -/
theorem C7_configure_process (db : DB) (id : Nat) (o : ConfigOpt) :
    (configValid o = true →
      Configure db true o id =
        ((Process (Schedule db ⟨false, false, CKind.config, id⟩).1).1,
         (Schedule db ⟨false, false, CKind.config, id⟩).2 ++
           (Process (Schedule db ⟨false, false, CKind.config, id⟩).1).2,
         none)) ∧
    (configValid o = false →
      ∃ m, Configure db true o id = (db, [], some m)) := by
  constructor
  · intro hv
    cases o with
    | trace => rfl
    | profile => rfl
    | change => rfl
    | busyTimeout isNum =>
      cases isNum
      · exact absurd hv (by simp [configValid])
      · rfl
    | limit argc3 idNum valNum =>
      cases argc3 <;> cases idNum <;> cases valNum <;>
        first
          | rfl
          | exact absurd hv (by simp [configValid])
    | other => exact absurd hv (by simp [configValid])
  · intro hv
    cases o with
    | trace => exact absurd hv (by simp [configValid])
    | profile => exact absurd hv (by simp [configValid])
    | change => exact absurd hv (by simp [configValid])
    | busyTimeout isNum =>
      cases isNum
      · exact ⟨"Value must be an integer", rfl⟩
      · exact absurd hv (by simp [configValid])
    | limit argc3 idNum valNum =>
      cases argc3 <;> cases idNum <;> cases valNum <;>
        first
          | exact ⟨"Expected 3 arguments", rfl⟩
          | exact ⟨"limit id must be an integer", rfl⟩
          | exact ⟨"limit value must be an integer", rfl⟩
          | exact absurd hv (by simp [configValid])
    | other => exact ⟨"is not a valid configuration option", rfl⟩

/-- Witness for the amended C7: a valid trace configure call on an
open idle connection dispatches the hook toggle and runs Process. -/
theorem C7_configure_process_witness :
    Configure ⟨true, false, false, 0, false, []⟩ true ConfigOpt.trace 9 =
      ((Process (Schedule ⟨true, false, false, 0, false, []⟩
          ⟨false, false, CKind.config, 9⟩).1).1,
       (Schedule ⟨true, false, false, 0, false, []⟩
          ⟨false, false, CKind.config, 9⟩).2 ++
         (Process (Schedule ⟨true, false, false, 0, false, []⟩
            ⟨false, false, CKind.config, 9⟩).1).2,
       none) :=
  (C7_configure_process ⟨true, false, false, 0, false, []⟩ 9 ConfigOpt.trace).1 rfl

/-! ## Claim C2: mutual exclusion of exclusive operations -/

/-- C2: in every reachable state, pending equals the number of
in-flight asynchronous operations, and an exclusive operation in
flight is alone (no other operation is in flight at the same time)
with locked held; hence an exclusive operation is never dispatched
concurrently with any other dispatched operation. -/
theorem C2_mutual_exclusion {s : MState} (h : Reach s) :
    s.db.pending = s.inflight.length ∧
    (∀ c ∈ s.inflight, c.exclusive = true →
      s.inflight.length = 1 ∧ s.db.locked = true) := by
  obtain ⟨h1, h2, _⟩ := Reach_inv h
  exact ⟨h1, h2⟩

/-- A reachable state with one exclusive operation in flight: open the
connection, then schedule an exclusive exec-like operation on the idle
connection. -/
def exclState : MState :=
  schedStep (finishOpenOk initState) ⟨true, true, CKind.dbwork, 0⟩

/-- Witness for C2 at the reachable state with an exclusive operation
in flight. -/
theorem C2_mutual_exclusion_witness :
    exclState.inflight.length = 1 ∧ exclState.db.locked = true := by
  have hr : Reach exclState :=
    Reach.next (Reach.next Reach.start (Step.finOpenOk initState rfl))
      (Step.schedule (finishOpenOk initState) ⟨true, true, CKind.dbwork, 0⟩
        (fun _ => rfl))
  exact (C2_mutual_exclusion hr).2 ⟨true, true, CKind.dbwork, 0⟩ (by decide) rfl

/-! ## Claim C6: Process is a no-op when nothing is eligible -/

theorem Process_noop (db : DB)
    (hflush : (!db.opened && db.locked && !db.queue.isEmpty) = false)
    (hdrain : drainGo db.opened db.locked db.pending db.closing db.queue =
      ⟨db.locked, db.pending, db.closing, db.queue, []⟩) :
    Process db = (db, []) := by
  unfold Process
  rw [hflush]
  rw [if_neg (by simp)]
  simp only [hdrain]
  rfl

/-- C6: in every reachable state in which no queued operation is
eligible to dispatch — the queue is empty, or the connection is not
open and the dead-flush condition does not hold, or locked is true
with pending positive, or the head of the queue is exclusive with
pending positive — Process returns the state unchanged and performs no
action, so a second consecutive call has no additional effect. -/
theorem C6_process_idempotent {s : MState} (h : Reach s)
    (hc : s.db.queue = [] ∨
      (s.db.opened = false ∧ ¬(s.db.locked = true ∧ s.db.queue ≠ [])) ∨
      (s.db.locked = true ∧ 0 < s.db.pending) ∨
      (∃ c rest, s.db.queue = c :: rest ∧ c.exclusive = true ∧ 0 < s.db.pending)) :
    Process s.db = (s.db, []) := by
  obtain ⟨h1, h2, h4, h5, h6, h7, h8, h9⟩ := Reach_inv h
  have hempty : s.db.queue = [] → Process s.db = (s.db, []) := by
    intro hq
    apply Process_noop
    · simp [hq]
    · rw [hq]
      simp [drainGo]
  rcases hc with hq | ⟨ho, hnl⟩ | ⟨hl, hp⟩ | ⟨c, rest, hq, hcx, hp⟩
  · exact hempty hq
  · by_cases hq : s.db.queue = []
    · exact hempty hq
    · have hlk : s.db.locked = false := by
        cases hlv : s.db.locked
        · rfl
        · exact absurd ⟨hlv, hq⟩ hnl
      apply Process_noop
      · simp [hlk]
      · exact drainGo_stuck _ _ _ _ _ (Or.inl ho)
  · cases hov : s.db.opened
    · have hq : s.db.queue = [] := h7 hov hl
      exact hempty hq
    · apply Process_noop
      · simp [hov]
      · exact drainGo_stuck _ _ _ _ _
          (Or.inr ⟨hl, Nat.pos_iff_ne_zero.mp hp⟩)
  · cases hov : s.db.opened
    · by_cases hlv : s.db.locked = true
      · have : s.db.queue = [] := h7 hov hlv
        rw [hq] at this
        exact absurd this (by simp)
      · rw [Bool.not_eq_true] at hlv
        apply Process_noop
        · simp [hlv]
        · exact drainGo_stuck _ _ _ _ _ (Or.inl hov)
    · cases hlv : s.db.locked
      · apply Process_noop
        · simp [hov]
        · have hg : (s.db.opened && (!s.db.locked || s.db.pending == 0)) = true := by
            simp [hov, hlv]
          have hh : (c.exclusive && !(s.db.pending == 0)) = true := by
            simp [hcx, Nat.pos_iff_ne_zero.mp hp]
          rw [hq]
          simp only [drainGo]
          rw [if_pos hg, if_pos hh]
      · apply Process_noop
        · simp [hov]
        · exact drainGo_stuck _ _ _ _ _
            (Or.inr ⟨hlv, Nat.pos_iff_ne_zero.mp hp⟩)

/-- Witness for C6 at the initial state (empty queue). -/
theorem C6_process_idempotent_witness :
    Process initState.db = (initState.db, []) :=
  C6_process_idempotent Reach.start (Or.inl rfl)

/-! ## Claim C4: the close lifecycle -/

/-- Once the connection is terminally dead (open false, locked true),
every step of the scheduler keeps it dead: locked stays true and open
stays false forever. -/
theorem dead_absorbing {s s' : MState} (hr : Reach s) (hs : Step s s')
    (ho : s.db.opened = false) (hl : s.db.locked = true) :
    s'.db.opened = false ∧ s'.db.locked = true := by
  obtain ⟨h1, h2, h4, h5, h6, h7, h8, h9⟩ := Reach_inv hr
  have hq : s.db.queue = [] := h7 ho hl
  have hinfl : s.inflight = [] := h6 ho
  have hof : s.openFinished = true := h5 hl
  have hnoop : Process s.db = (s.db, []) := by
    apply Process_noop
    · simp [hq]
    · exact drainGo_stuck _ _ _ _ _ (Or.inl ho)
  cases hs with
  | schedule r hclose =>
    have hdead : schedDead s.db = true := (schedDead_iff _).mpr ⟨ho, hl⟩
    constructor
    · show (schedStep s r).db.opened = false
      simp [schedStep, Schedule, hdead, ho]
    · show (schedStep s r).db.locked = true
      simp [schedStep, Schedule, hdead, hl]
  | proc =>
    constructor
    · show (procStep s).db.opened = false
      simp [procStep, hnoop, ho]
    · show (procStep s).db.locked = true
      simp [procStep, hnoop, hl]
  | finOpenOk hfin =>
    rw [hof] at hfin
    exact Bool.noConfusion hfin
  | finOpenFail hfin =>
    rw [hof] at hfin
    exact Bool.noConfusion hfin
  | doneWork c l1 l2 hm _ =>
    rw [hinfl] at hm
    exact absurd hm.symm (by simp)
  | doneCloseOk c l1 l2 hm _ =>
    rw [hinfl] at hm
    exact absurd hm.symm (by simp)
  | doneCloseFail c l1 l2 hm _ =>
    rw [hinfl] at hm
    exact absurd hm.symm (by simp)
  | setMode b =>
    have hnoop2 : Process { s.db with serialize := b } =
        ({ s.db with serialize := b }, []) := by
      apply Process_noop
      · simp [ho, hl, hq]
      · exact drainGo_stuck _ _ _ _ _ (Or.inl ho)
    constructor
    · show (serializeSet s b).db.opened = false
      simp only [serializeSet, hnoop2]
      exact ho
    · show (serializeSet s b).db.locked = true
      simp only [serializeSet, hnoop2]
      exact hl

/-- C4: a close operation is dispatched under the asserted
precondition locked true, open true, pending zero; Work_BeginClose
increments pending and sets closing; after the close body,
Work_AfterClose decrements pending and clears closing; on engine
success open becomes false with locked still true, the "close" event
fires and Process runs on the closed state (flushing anything queued);
on engine failure open and locked both remain true and Process is not
called; and the dead state (open false, locked true) then persists
through every further step of the scheduler. -/
theorem C4_close_lifecycle (db : DB) (hasCb : Bool)
    (hl : db.locked = true) (ho : db.opened = true) (hp : db.pending = 0) :
    (Work_BeginClose db).pending = db.pending + 1 ∧
    (Work_BeginClose db).closing = true ∧
    (Work_BeginClose db).opened = true ∧
    (Work_BeginClose db).locked = true ∧
    ((Work_AfterClose (Work_BeginClose db) true hasCb).1.opened = false ∧
     (Work_AfterClose (Work_BeginClose db) true hasCb).1.locked = true ∧
     (Work_AfterClose (Work_BeginClose db) true hasCb).1.pending = 0 ∧
     (Work_AfterClose (Work_BeginClose db) true hasCb).1.closing = false ∧
     Act.emitClose ∈ (Work_AfterClose (Work_BeginClose db) true hasCb).2 ∧
     Work_AfterClose (Work_BeginClose db) true hasCb =
       ((Process { db with opened := false, closing := false }).1,
        (if hasCb then [Act.cbDone true] else []) ++
          Act.emitClose :: (Process { db with opened := false, closing := false }).2)) ∧
    ((Work_AfterClose (Work_BeginClose db) false hasCb).1 = { db with closing := false } ∧
     (Work_AfterClose (Work_BeginClose db) false hasCb).1.opened = true ∧
     (Work_AfterClose (Work_BeginClose db) false hasCb).1.locked = true) ∧
    (∀ s s' : MState, Reach s → Step s s' →
      s.db.opened = false → s.db.locked = true →
      s'.db.opened = false ∧ s'.db.locked = true) := by
  obtain ⟨o, cl, l, p, ser, q⟩ := db
  have hl' : l = true := hl
  have ho' : o = true := ho
  have hp' : p = 0 := hp
  subst hl'
  subst ho'
  subst hp'
  have hdead : (⟨false, false, true, 0, ser, q⟩ : DB).opened = false := rfl
  refine ⟨rfl, rfl, rfl, rfl, ⟨?_, ?_, ?_, ?_, ?_, ?_⟩, ⟨?_, rfl, rfl⟩, ?_⟩
  · show (Process ⟨false, false, true, 0, ser, q⟩).1.opened = false
    rw [Process_opened]
  · show (Process ⟨false, false, true, 0, ser, q⟩).1.locked = true
    exact (Process_dead_fields _ rfl).1
  · show (Process ⟨false, false, true, 0, ser, q⟩).1.pending = 0
    exact (Process_dead_fields _ rfl).2.1
  · show (Process ⟨false, false, true, 0, ser, q⟩).1.closing = false
    exact (Process_dead_fields _ rfl).2.2
  · show Act.emitClose ∈ (if hasCb then [Act.cbDone true] else []) ++
      Act.emitClose :: (Process ⟨false, false, true, 0, ser, q⟩).2
    simp
  · rfl
  · rfl
  · exact fun s s' hr hs ho2 hl2 => dead_absorbing hr hs ho2 hl2

/-- Witness for C4 on an open, locked, idle connection with a
callback. -/
theorem C4_close_lifecycle_witness :
    (Work_BeginClose ⟨true, false, true, 0, false, []⟩).closing = true ∧
    (Work_AfterClose (Work_BeginClose ⟨true, false, true, 0, false, []⟩) true true).1.opened
      = false ∧
    (Work_AfterClose (Work_BeginClose ⟨true, false, true, 0, false, []⟩) true true).1.locked
      = true := by
  have h := C4_close_lifecycle ⟨true, false, true, 0, false, []⟩ true rfl rfl rfl
  exact ⟨h.2.1, h.2.2.2.2.1.1, h.2.2.2.2.1.2.1⟩

end NodeSqlite3
